import Mathlib

/-!
Verification of the flake8 core file-processor specification against a
shallow embedding of the repository's code.

Python strings are embedded as lists of characters (`PyStr`), lists of
physical lines as `List PyStr`.  The `FileProcessor` state is a structure;
methods become functions from state to state (returning values where the
Python method returns one).  The formatter (`flake8/formatting/base.py`)
is embedded with its observable output modelled as a list of events.
-/

/-- Python strings are modelled as lists of characters. -/
abbrev PyStr := List Char

namespace Flake8

/-- Python truthiness of an optional string: `None` and the empty string
are falsy, any non-empty string is truthy. -/
def py_truthy : Option PyStr → Bool
  | none => false
  | some s => !s.isEmpty

/-- Modelled from the spec: the state of a `FileProcessor` instance
(`flake8/processor.py` is not part of the provided sources; the data model
follows spec section 3). -/
structure FileProcessor where
  filename : PyStr
  lines : List PyStr
  line_number : Nat
  indent_char : Option Char
  indent_level : Nat
  previous_indent_level : Nat
  logical_line : PyStr
  previous_logical : PyStr
  blank_lines : Nat
  blank_before : Nat
  multiline : Bool
  noqa : Bool
  deriving Repr, DecidableEq

/-- The three-byte UTF-8 byte-order-marker form, as it appears when each
byte is read as one character. -/
def bom_utf8 : PyStr := [Char.ofNat 0xEF, Char.ofNat 0xBB, Char.ofNat 0xBF]

/-- The single-codepoint byte-order-marker form U+FEFF. -/
def bom_codepoint : PyStr := [Char.ofNat 0xFEFF]

/-- Modelled from the spec: `strip_utf_bom` removes a leading byte-order
marker (either the three-byte UTF-8 form or the single-codepoint form)
from the start of the first line only; all other content is unaffected
(`processor.py` is not in the provided sources; spec sections 4.1 and 8). -/
def strip_utf_bom : List PyStr → List PyStr
  | [] => []
  | first :: rest =>
    if bom_utf8.isPrefixOf first then first.drop 3 :: rest
    else if bom_codepoint.isPrefixOf first then first.drop 1 :: rest
    else first :: rest

/-- Modelled from the spec: construction of a `FileProcessor` with an
already-known line list; counters start at zero, `previous_logical` empty,
`indent_char` unset, `multiline` false (spec section 3, Data Model). -/
def init_processor (filename : PyStr) (lines : List PyStr) : FileProcessor :=
  { filename := filename
    lines := strip_utf_bom lines
    line_number := 0
    indent_char := none
    indent_level := 0
    previous_indent_level := 0
    logical_line := []
    previous_logical := []
    blank_lines := 0
    blank_before := 0
    multiline := false
    noqa := false }

/-- The literal file-level directive text. -/
def noqa_file_directive : PyStr := "# flake8: noqa".toList

/-- Modelled from the spec: `should_ignore_file` returns true iff at least
one physical line exactly equals the literal file-level directive text
(`processor.py` is not in the provided sources; spec section 4.2). -/
def should_ignore_file (fp : FileProcessor) : Bool :=
  fp.lines.any (fun line => line = noqa_file_directive)

/-- Modelled from the spec: `line_for(n)` is the 1-indexed lookup into the
immutable line sequence (spec section 6). -/
def line_for (fp : FileProcessor) (n : Nat) : PyStr :=
  fp.lines.getD (n - 1) []

/-- Modelled from the spec: `next_line` advances the cursor by one and
returns the new current line; the cursor never exceeds the number of
physical lines (`processor.py` is not in the provided sources; spec
sections 3, 6 and 8). -/
def next_line (fp : FileProcessor) : PyStr × FileProcessor :=
  if fp.line_number < fp.lines.length then
    (fp.lines.getD fp.line_number [],
     { fp with line_number := fp.line_number + 1 })
  else ([], fp)

/-- Repeats `next_line` a given number of times, collecting the returned
lines in order together with the final state. -/
def run_next_lines (fp : FileProcessor) : Nat → List PyStr × FileProcessor
  | 0 => ([], fp)
  | n + 1 =>
    let step := next_line fp
    let rest := run_next_lines step.2 n
    (step.1 :: rest.1, rest.2)

/-- Modelled from the spec: `next_logical_line` copies `logical_line` into
`previous_logical`, copies `indent_level` into `previous_indent_level`,
and resets `blank_lines` to 0 (`processor.py` is not in the provided
sources; spec section 4.4). -/
def next_logical_line (fp : FileProcessor) : FileProcessor :=
  { fp with
    previous_logical := fp.logical_line
    previous_indent_level := fp.indent_level
    blank_lines := 0 }

/-- Modelled from the spec: `visited_new_blank_line` increments the
blank-line counters (spec section 6). -/
def visited_new_blank_line (fp : FileProcessor) : FileProcessor :=
  { fp with
    blank_lines := fp.blank_lines + 1
    blank_before := fp.blank_before + 1 }

/-- The first character of a line when it is leading whitespace (space or
tab), `none` when the line has no leading whitespace. -/
def leading_whitespace_char : PyStr → Option Char
  | [] => none
  | c :: _ => if c = ' ' ∨ c = '\t' then some c else none

/-- Modelled from the spec: `check_physical_error` records the first
leading-whitespace character as `indent_char` when the error code denotes
mixed/invalid indentation and the line is indented; a later line does not
override an already-set value, and every other code leaves `indent_char`
unchanged (`processor.py` is not in the provided sources; spec
section 4.5). -/
def check_physical_error (fp : FileProcessor) (error_code : PyStr)
    (line : PyStr) : FileProcessor :=
  if error_code = "E101".toList then
    match leading_whitespace_char line with
    | some c =>
      match fp.indent_char with
      | none => { fp with indent_char := some c }
      | some _ => fp
    | none => fp
  else fp

end Flake8

namespace Flake8

/-- Doc: splitting a list of characters at every newline, mirroring the
behaviour of Python `text.split` with a newline separator: `n` newline
characters produce `n + 1` parts, empty parts included. -/
def split_on_nl : PyStr → List PyStr
  | [] => [[]]
  | c :: rest =>
    if c = '\n' then [] :: split_on_nl rest
    else
      match split_on_nl rest with
      | [] => [[c]]
      | h :: t => (c :: h) :: t

/-- Modelled from the spec: the fragments produced when splitting a
token's raw text; a text with no newline produces an empty sequence,
otherwise the internal newlines act as separators and the part after the
last newline is not produced (`processor.py` is not in the provided
sources; spec sections 4.3 and 8). -/
def split_line_fragments (text : PyStr) : List PyStr :=
  if text.contains '\n' then (split_on_nl text).dropLast else []

/-- Modelled from the spec: `split_line(token)` yields the fragments of
the token's text and auto-increments `line_number` once per fragment
(`processor.py` is not in the provided sources; spec sections 4.3
and 8). -/
def split_line (fp : FileProcessor) (token : Nat × PyStr) :
    List PyStr × FileProcessor :=
  let frags := split_line_fragments token.2
  (frags, { fp with line_number := fp.line_number + frags.length })

/-- Modelled from the spec: entering the multi-line scope sets
`multiline` to true and `line_number` to the given line (spec
section 4.3). -/
def enter_multiline (n : Nat) (fp : FileProcessor) : FileProcessor :=
  { fp with line_number := n, multiline := true }

/-- Modelled from the spec: leaving the multi-line scope restores
`multiline` to false and `line_number` to the saved value (spec
sections 4.3 and 5). -/
def exit_multiline (saved : Nat) (fp : FileProcessor) : FileProcessor :=
  { fp with line_number := saved, multiline := false }

/-- Modelled from the spec: the scoped multi-line context
`inside_multiline(n)`.  The body runs on the entered state and reports the
state it left behind together with an optional raised error; the scope
restores `multiline` and `line_number` on every exit path, the error being
propagated unchanged (`processor.py` is not in the provided sources; spec
sections 4.3 and 5). -/
def inside_multiline (n : Nat)
    (body : FileProcessor → FileProcessor × Option ε)
    (fp : FileProcessor) : FileProcessor × Option ε :=
  let saved := fp.line_number
  let result := body (enter_multiline n fp)
  (exit_multiline saved result.1, result.2)

/-- Values held in processor attributes and keyword-argument mappings. -/
inductive PyValue where
  | int (n : Nat)
  | bool (b : Bool)
  | str (s : PyStr)
  deriving Repr, DecidableEq, BEq

/-- Modelled from the spec: dynamic lookup of a same-named attribute on
the processor's current state, `none` when the processor provides no such
piece of state (the reflective `getattr` of `processor.py`, which is not
in the provided sources; spec section 4.7). -/
def attribute_for (fp : FileProcessor) : PyStr → Option PyValue
  | s =>
    if s = "blank_before".toList then some (.int fp.blank_before)
    else if s = "blank_lines".toList then some (.int fp.blank_lines)
    else if s = "noqa".toList then some (.bool fp.noqa)
    else if s = "indent_level".toList then some (.int fp.indent_level)
    else if s = "previous_indent_level".toList then
      some (.int fp.previous_indent_level)
    else if s = "logical_line".toList then some (.str fp.logical_line)
    else if s = "previous_logical".toList then some (.str fp.previous_logical)
    else if s = "line_number".toList then some (.int fp.line_number)
    else none

/-- Modelled from the spec: `keyword_arguments_for(parameter_names,
explicit_args)` resolves each requested name: an explicit value is kept
verbatim, otherwise the same-named processor attribute is added, and a
name with neither propagates as an uncaught attribute-lookup failure
carrying the offending name (`processor.py` is not in the provided
sources; spec section 4.7). -/
def keyword_arguments_for (fp : FileProcessor) (parameter_names : List PyStr)
    (explicit_args : List (PyStr × PyValue)) :
    Except PyStr (List (PyStr × PyValue)) :=
  match parameter_names with
  | [] => .ok explicit_args
  | p :: rest =>
    match explicit_args.lookup p with
    | some _ => keyword_arguments_for fp rest explicit_args
    | none =>
      match attribute_for fp p with
      | some v => keyword_arguments_for fp rest (explicit_args ++ [(p, v)])
      | none => .error p

end Flake8

namespace Flake8

/-- The options a `BaseFormatter` reads: `show_source` and `output_file`
(`None` or a path). -/
structure FormatOptions where
  show_source : Bool
  output_file : Option PyStr
  deriving Repr, DecidableEq

/-- An error record as consumed by the formatter: the offending physical
line and the reported column number. -/
structure StyleError where
  physical_line : PyStr
  column_number : Nat
  deriving Repr, DecidableEq

/-- The state of a `BaseFormatter` (`flake8/formatting/base.py`): parsed
options, output filename, the optional open file handle, and the newline
string appended when writing to a file. -/
structure BaseFormatter where
  options : FormatOptions
  filename : Option PyStr
  output_fd : Option Nat
  newline : PyStr
  deriving Repr, DecidableEq

/-- Observable output actions of the formatter: a write to the open file
handle, a print to standard output, or the closing of a file handle. -/
inductive OutEvent where
  | fileWrite (fd : Nat) (s : PyStr)
  | stdoutPrint (s : PyStr)
  | fileClose (fd : Nat)
  deriving Repr, DecidableEq

/-- Embedding of `BaseFormatter.__init__`: stores the options, takes the
output filename from them, leaves `output_fd` unset and fixes the newline
string. -/
def formatter_init (options : FormatOptions) : BaseFormatter :=
  { options := options
    filename := options.output_file
    output_fd := none
    newline := ['\n'] }

/-- Embedding of `BaseFormatter.start`: opens the output file (the handle
the system returns is passed in) when a filename was specified. -/
def formatter_start (f : BaseFormatter) (fd : Nat) : BaseFormatter :=
  if py_truthy f.filename then { f with output_fd := some fd } else f

/-- Embedding of `BaseFormatter.format_source`: `None` unless the user
wants to show the source, otherwise the physical line followed by
`column_number` spaces and a caret. -/
def format_source (f : BaseFormatter) (error : StyleError) : Option PyStr :=
  if !f.options.show_source then none
  else some (error.physical_line ++ (List.replicate error.column_number ' ' ++ ['^']))

/-- One line of output as `BaseFormatter.write` produces it: appended with
the newline string and written to the open file handle when there is one,
printed to standard output otherwise. -/
def output_one (f : BaseFormatter) (line : PyStr) : OutEvent :=
  match f.output_fd with
  | some fd => .fileWrite fd (line ++ f.newline)
  | none => .stdoutPrint line

/-- Embedding of `BaseFormatter.write`: outputs the formatted line, then
the source line when it is truthy. -/
def formatter_write (f : BaseFormatter) (line : PyStr) (source : Option PyStr) :
    List OutEvent :=
  output_one f line ::
    (if py_truthy source then [output_one f (source.getD [])] else [])

/-- Embedding of `BaseFormatter.handle`: formats the error (`format` is
abstract in the base class and is passed in), formats the source, and
writes both. -/
def handle (format : StyleError → PyStr) (f : BaseFormatter)
    (error : StyleError) : List OutEvent :=
  formatter_write f (format error) (format_source f error)

/-- Embedding of `BaseFormatter.stop`: closes the open file handle when
one exists and resets `output_fd`; otherwise does nothing. -/
def formatter_stop (f : BaseFormatter) : BaseFormatter × List OutEvent :=
  match f.output_fd with
  | some fd => ({ f with output_fd := none }, [.fileClose fd])
  | none => (f, [])

end Flake8

namespace Flake8

/-- C1: inside the scoped multi-line context entered with line number `n`,
`multiline` is true and `line_number` equals `n`; on every exit path —
normal completion or an error raised inside the scope (the body's optional
error, which is propagated unchanged) — `multiline` is restored to false
(and `line_number` to its saved value). -/
theorem inside_multiline_restores (n : Nat) (ε : Type)
    (body : FileProcessor → FileProcessor × Option ε) (fp : FileProcessor) :
    (enter_multiline n fp).multiline = true
    ∧ (enter_multiline n fp).line_number = n
    ∧ (inside_multiline n body fp).1.multiline = false
    ∧ (inside_multiline n body fp).1.line_number = fp.line_number
    ∧ (inside_multiline n body fp).2 = (body (enter_multiline n fp)).2 :=
  ⟨rfl, rfl, rfl, rfl, rfl⟩

/-- C3: `should_ignore_file` is true iff at least one physical line
exactly equals the literal file-level directive text, irrespective of its
position in the file. -/
theorem should_ignore_file_iff (fp : FileProcessor) :
    should_ignore_file fp = true ↔
      ∃ line ∈ fp.lines, line = noqa_file_directive := by
  simp [should_ignore_file, List.any_eq_true]

/-- Witness for C3 at a concrete file whose last line is the directive. -/
theorem should_ignore_file_iff_witness :
    should_ignore_file (init_processor "-".toList
      ["#!/usr/bin/python".toList, "a = 1".toList,
       "# flake8: noqa".toList]) = true :=
  (should_ignore_file_iff _).mpr (by decide)

/-- C4: when the first physical line starts with a byte-order marker
(either form), the constructed line list has exactly that marker removed
from the first line, every other line unchanged. -/
theorem strip_utf_bom_removes_marker (marker tail : PyStr)
    (rest : List PyStr) (h : marker = bom_utf8 ∨ marker = bom_codepoint) :
    strip_utf_bom ((marker ++ tail) :: rest) = tail :: rest := by
  rcases h with h | h <;> subst h
  · have hpre : bom_utf8.isPrefixOf (bom_utf8 ++ tail) = true := by
      simp [ List.isPrefixOf_iff_prefix]
    simp [strip_utf_bom, hpre, bom_utf8]
  · have hpre : bom_utf8.isPrefixOf (bom_codepoint ++ tail) = false := by
      simp [bom_utf8, bom_codepoint, List.isPrefixOf]
    have hpre2 : bom_codepoint.isPrefixOf (bom_codepoint ++ tail) = true := by
      simp [ List.isPrefixOf_iff_prefix]
    simp only [strip_utf_bom, hpre, hpre2]
    simp [bom_codepoint]

/-- Witness for C4 at the single-codepoint marker and a docstring line. -/
theorem strip_utf_bom_removes_marker_witness :
    strip_utf_bom [bom_codepoint ++ "\"\"\"Module docstring.\"\"\"\n".toList]
      = ["\"\"\"Module docstring.\"\"\"\n".toList] := by
  have h := strip_utf_bom_removes_marker bom_codepoint
    "\"\"\"Module docstring.\"\"\"\n".toList [] (Or.inr rfl)
  simpa using h

/-- C5: `next_logical_line` copies `logical_line` into `previous_logical`,
`indent_level` into `previous_indent_level`, and resets `blank_lines` to
0; before any call, `previous_logical` is empty and
`previous_indent_level` is 0. -/
theorem next_logical_line_spec (filename : PyStr) (lines : List PyStr)
    (fp : FileProcessor) :
    (init_processor filename lines).previous_logical = []
    ∧ (init_processor filename lines).previous_indent_level = 0
    ∧ next_logical_line fp =
        { fp with
          previous_logical := fp.logical_line
          previous_indent_level := fp.indent_level
          blank_lines := 0 } :=
  ⟨rfl, rfl, rfl⟩

/-- C6: `check_physical_error` with the mixed-indentation code records the
line's first leading-whitespace character as `indent_char` when unset and
the line is indented; an unindented line leaves it unchanged; any other
code leaves it unchanged; and an already-set value is never overridden. -/
theorem check_physical_error_spec (fp : FileProcessor)
    (error_code line : PyStr) :
    (∀ c, error_code = "E101".toList → leading_whitespace_char line = some c →
        fp.indent_char = none →
        check_physical_error fp error_code line =
          { fp with indent_char := some c })
    ∧ (error_code = "E101".toList → leading_whitespace_char line = none →
        check_physical_error fp error_code line = fp)
    ∧ (error_code ≠ "E101".toList →
        check_physical_error fp error_code line = fp)
    ∧ (∀ d, fp.indent_char = some d →
        (check_physical_error fp error_code line).indent_char = some d) := by
  refine ⟨?_, ?_, ?_, ?_⟩
  · intro c hc hl hn
    simp [check_physical_error, hc, hl, hn]
  · intro hc hl
    simp [check_physical_error, hc, hl]
  · intro hc
    unfold check_physical_error
    rw [if_neg hc]
  · intro d hd
    unfold check_physical_error
    split
    · cases hw : leading_whitespace_char line <;> simp [hw, hd]
    · exact hd

/-- Witness for C6 on a tab-indented line with the indentation code. -/
theorem check_physical_error_spec_witness :
    check_physical_error (init_processor "-".toList ["Line 1".toList])
      "E101".toList "\t\ta = 1".toList
      = { init_processor "-".toList ["Line 1".toList] with
          indent_char := some '\t' } :=
  (check_physical_error_spec _ _ _).1 '\t' rfl (by decide) rfl

end Flake8

namespace Flake8

/-- A single `next_line` call inside the file advances the cursor by one
and returns the line at the new (1-indexed) cursor position. -/
theorem next_line_step (fp : FileProcessor)
    (h : fp.line_number < fp.lines.length) :
    next_line fp = (fp.lines.getD fp.line_number [],
      { fp with line_number := fp.line_number + 1 }) := by
  simp [next_line, h]

/-- Running `next_line` `n` times while staying inside the file returns
the next `n` lines in order and advances the cursor by `n`. -/
theorem run_next_lines_all (n : Nat) (fp : FileProcessor)
    (h : fp.line_number + n ≤ fp.lines.length) :
    run_next_lines fp n =
      ((fp.lines.drop fp.line_number).take n,
       { fp with line_number := fp.line_number + n }) := by
  induction n generalizing fp with
  | zero =>
    simp [run_next_lines]
  | succ n ih =>
    have hlt : fp.line_number < fp.lines.length := by omega
    have hstep := next_line_step fp hlt
    have hrest := ih { fp with line_number := fp.line_number + 1 } (by simp; omega)
    simp only [run_next_lines, hstep, hrest]
    simp [List.getD_eq_getElem?_getD, List.getElem?_eq_getElem hlt, Nat.add_assoc]
    exact ⟨by rw [List.drop_eq_getElem_cons hlt, List.take_succ_cons], by omega⟩

/-- C8: starting from `line_number = 0`, each in-range `next_line` call
advances `line_number` by exactly one and returns the line at the new
cursor position, so `lines.length` successive calls return every line in
original order and leave `line_number` equal to the line count. -/
theorem next_line_consumes_in_order (fp : FileProcessor)
    (h0 : fp.line_number = 0) :
    (∀ gp : FileProcessor, gp.line_number < gp.lines.length →
        next_line gp = (gp.lines.getD gp.line_number [],
          { gp with line_number := gp.line_number + 1 }))
    ∧ run_next_lines fp fp.lines.length =
        (fp.lines, { fp with line_number := fp.lines.length }) := by
  refine ⟨fun gp hg => next_line_step gp hg, ?_⟩
  have h := run_next_lines_all fp.lines.length fp (by omega)
  rw [h, h0]
  simp

/-- Witness for C8 on a concrete three-line input. -/
theorem next_line_consumes_in_order_witness :
    run_next_lines (init_processor "-".toList
        ["Line 1".toList, "Line 2".toList, "Line 3".toList])
      (init_processor "-".toList
        ["Line 1".toList, "Line 2".toList, "Line 3".toList]).lines.length
      = ((init_processor "-".toList
            ["Line 1".toList, "Line 2".toList, "Line 3".toList]).lines,
         { init_processor "-".toList
              ["Line 1".toList, "Line 2".toList, "Line 3".toList] with
           line_number := (init_processor "-".toList
              ["Line 1".toList, "Line 2".toList, "Line 3".toList]).lines.length }) :=
  (next_line_consumes_in_order _ rfl).2

end Flake8

namespace Flake8

/-- Splitting a text that starts with a newline-free line followed by a
newline separator peels off exactly that line. -/
theorem split_on_nl_append_terminated (l rest : PyStr) (hl : '\n' ∉ l) :
    split_on_nl (l ++ '\n' :: rest) = l :: split_on_nl rest := by
  induction l with
  | nil => simp [split_on_nl]
  | cons c t ih =>
    have hc : ¬ c = '\n' := fun hc => hl (hc ▸ List.mem_cons_self c t)
    have ht : '\n' ∉ t := fun hm => hl (List.mem_cons_of_mem c hm)
    simp only [List.cons_append, split_on_nl, if_neg hc, List.append_eq,
      ih ht]

/-- Splitting the concatenation of newline-terminated lines recovers the
lines followed by one empty trailing part. -/
theorem split_on_nl_flatten (ls : List PyStr) (h : ∀ l ∈ ls, '\n' ∉ l) :
    split_on_nl ((ls.map (fun l => l ++ ['\n'])).flatten) = ls ++ [[]] := by
  induction ls with
  | nil => simp [split_on_nl]
  | cons l t ih =>
    have hl : '\n' ∉ l := h l (List.mem_cons_self l t)
    have ht : ∀ m ∈ t, '\n' ∉ m := fun m hm => h m (List.mem_cons_of_mem l hm)
    calc split_on_nl (((l :: t).map (fun l => l ++ ['\n'])).flatten)
        = split_on_nl (l ++ '\n' :: (t.map (fun l => l ++ ['\n'])).flatten) := by
          simp [List.append_assoc]
      _ = l :: split_on_nl ((t.map (fun l => l ++ ['\n'])).flatten) :=
          split_on_nl_append_terminated l _ hl
      _ = (l :: t) ++ [[]] := by rw [ih ht]; simp

/-- C7: splitting a token whose text contains no newline produces the
empty sequence and leaves the processor unchanged; splitting a token made
of newline-terminated physical lines produces exactly those lines in
order, terminators excluded; and the fragment count always equals the
advancement of `line_number` during the split. -/
theorem split_line_spec (fp : FileProcessor) (tokNum : Nat) (text : PyStr)
    (ls : List PyStr) :
    ('\n' ∉ text → split_line fp (tokNum, text) = ([], fp))
    ∧ ((∀ l ∈ ls, '\n' ∉ l) →
        (split_line fp (tokNum, (ls.map (fun l => l ++ ['\n'])).flatten)).1 = ls)
    ∧ (split_line fp (tokNum, text)).2.line_number =
        fp.line_number + (split_line fp (tokNum, text)).1.length := by
  refine ⟨?_, ?_, rfl⟩
  · intro hno
    simp [split_line, split_line_fragments, hno]
  · intro h
    cases ls with
    | nil => simp [split_line, split_line_fragments, split_on_nl]
    | cons l t =>
      have hcont : (((l :: t).map (fun l => l ++ ['\n'])).flatten).contains '\n'
          = true := by
        simp
      have hfrag : split_line_fragments
          (((l :: t).map (fun l => l ++ ['\n'])).flatten) = l :: t := by
        unfold split_line_fragments
        rw [if_pos hcont, split_on_nl_flatten (l :: t) h]
        exact List.dropLast_concat ..
      have hfst : (split_line fp
            (tokNum, ((l :: t).map (fun l => l ++ ['\n'])).flatten)).1
          = split_line_fragments
              ((l :: t).map (fun l => l ++ ['\n'])).flatten := rfl
      rw [hfst, hfrag]

end Flake8

namespace Flake8

/-- Witness for C7 on a token text of two newline-terminated lines. -/
theorem split_line_spec_witness :
    (split_line (init_processor "-".toList ["Line 1".toList])
        (1, (["line 1".toList, "line 2".toList].map
              (fun l => l ++ ['\n'])).flatten)).1
      = ["line 1".toList, "line 2".toList] :=
  (split_line_spec (init_processor "-".toList ["Line 1".toList]) 1 []
      ["line 1".toList, "line 2".toList]).2.1 (by decide)

/-- Looking a key up in an appended association list falls through to the
second list when the first does not bind it. -/
theorem lookup_append_right {α β : Type} [BEq α] (l₁ l₂ : List (α × β))
    (a : α) (h : l₁.lookup a = none) :
    (l₁ ++ l₂).lookup a = l₂.lookup a := by
  induction l₁ with
  | nil => rfl
  | cons p t ih =>
    obtain ⟨k, w⟩ := p
    cases hk : a == k with
    | true =>
      simp only [List.lookup, hk] at h
      exact Option.noConfusion h
    | false =>
      simp only [List.lookup, hk] at h
      simp only [List.cons_append, List.lookup, hk]
      exact ih h

/-- Looking a key up in an appended association list keeps the binding of
the first list when present. -/
theorem lookup_append_some {α β : Type} [BEq α] (l₁ l₂ : List (α × β))
    (a : α) (v : β) (h : l₁.lookup a = some v) :
    (l₁ ++ l₂).lookup a = some v := by
  induction l₁ with
  | nil => cases h
  | cons p t ih =>
    obtain ⟨k, w⟩ := p
    cases hk : a == k with
    | true =>
      simp only [List.lookup, hk] at h
      simp only [List.cons_append, List.lookup, hk]
      exact h
    | false =>
      simp only [List.lookup, hk] at h
      simp only [List.cons_append, List.lookup, hk]
      exact ih h

/-- Resolution step: a name already bound explicitly is skipped. -/
theorem keyword_arguments_for_cons_skip (fp : FileProcessor) (q : PyStr)
    (rest : List PyStr) (args : List (PyStr × PyValue)) (w : PyValue)
    (hq : args.lookup q = some w) :
    keyword_arguments_for fp (q :: rest) args
      = keyword_arguments_for fp rest args := by
  simp only [keyword_arguments_for, hq]

/-- Resolution step: a name not bound explicitly is taken from the
matching processor attribute. -/
theorem keyword_arguments_for_cons_attr (fp : FileProcessor) (q : PyStr)
    (rest : List PyStr) (args : List (PyStr × PyValue)) (w : PyValue)
    (hq : args.lookup q = none) (ha : attribute_for fp q = some w) :
    keyword_arguments_for fp (q :: rest) args
      = keyword_arguments_for fp rest (args ++ [(q, w)]) := by
  simp only [keyword_arguments_for, hq, ha]

/-- Resolution step: a name bound neither explicitly nor by an attribute
fails immediately with that name. -/
theorem keyword_arguments_for_cons_err (fp : FileProcessor) (q : PyStr)
    (rest : List PyStr) (args : List (PyStr × PyValue))
    (hq : args.lookup q = none) (ha : attribute_for fp q = none) :
    keyword_arguments_for fp (q :: rest) args = .error q := by
  simp only [keyword_arguments_for, hq, ha]

/-- Every binding of the explicit mapping survives argument resolution
verbatim. -/
theorem keyword_arguments_for_keeps (fp : FileProcessor)
    (params : List PyStr) (args res : List (PyStr × PyValue))
    (hok : keyword_arguments_for fp params args = .ok res)
    (p : PyStr) (v : PyValue) (hp : args.lookup p = some v) :
    res.lookup p = some v := by
  induction params generalizing args with
  | nil =>
    simp only [keyword_arguments_for, Except.ok.injEq] at hok
    exact hok ▸ hp
  | cons q rest ih =>
    cases hq : args.lookup q with
    | some w =>
      rw [keyword_arguments_for_cons_skip fp q rest args w hq] at hok
      exact ih args hok hp
    | none =>
      cases ha : attribute_for fp q with
      | some w =>
        rw [keyword_arguments_for_cons_attr fp q rest args w hq ha] at hok
        exact ih (args ++ [(q, w)]) hok (lookup_append_some _ _ _ _ hp)
      | none =>
        rw [keyword_arguments_for_cons_err fp q rest args hq ha] at hok
        cases hok

/-- A requested name with no explicit binding resolves to the same-named
processor attribute whenever resolution succeeds. -/
theorem keyword_arguments_for_resolves (fp : FileProcessor)
    (params : List PyStr) (args res : List (PyStr × PyValue))
    (hok : keyword_arguments_for fp params args = .ok res)
    (p : PyStr) (hmem : p ∈ params) (hp : args.lookup p = none) :
    res.lookup p = attribute_for fp p := by
  induction params generalizing args with
  | nil => cases hmem
  | cons q rest ih =>
    by_cases hpq : p = q
    · subst hpq
      cases ha : attribute_for fp p with
      | none =>
        rw [keyword_arguments_for_cons_err fp p rest args hp ha] at hok
        cases hok
      | some w =>
        rw [keyword_arguments_for_cons_attr fp p rest args w hp ha] at hok
        have hl : (args ++ [(p, w)]).lookup p = some w := by
          rw [lookup_append_right _ _ _ hp]
          simp [List.lookup]
        exact keyword_arguments_for_keeps fp rest _ res hok p w hl
    · have hmem' : p ∈ rest := by
        rcases List.mem_cons.mp hmem with h | h
        · exact absurd h hpq
        · exact h
      cases hq : args.lookup q with
      | some w =>
        rw [keyword_arguments_for_cons_skip fp q rest args w hq] at hok
        exact ih args hok hmem' hp
      | none =>
        cases ha : attribute_for fp q with
        | none =>
          rw [keyword_arguments_for_cons_err fp q rest args hq ha] at hok
          cases hok
        | some w =>
          rw [keyword_arguments_for_cons_attr fp q rest args w hq ha] at hok
          refine ih (args ++ [(q, w)]) hok hmem' ?_
          rw [lookup_append_right _ _ _ hp]
          have hbeq : (p == q) = false := beq_eq_false_iff_ne.mpr hpq
          simp [List.lookup, hbeq]

/-- A requested name bound neither explicitly nor by a processor
attribute makes the whole resolution fail. -/
theorem keyword_arguments_for_fails (fp : FileProcessor)
    (params : List PyStr) (args : List (PyStr × PyValue)) (p : PyStr)
    (hmem : p ∈ params) (hp : args.lookup p = none)
    (ha : attribute_for fp p = none) :
    ∃ e, keyword_arguments_for fp params args = .error e := by
  induction params generalizing args with
  | nil => cases hmem
  | cons q rest ih =>
    by_cases hpq : p = q
    · subst hpq
      exact ⟨p, keyword_arguments_for_cons_err fp p rest args hp ha⟩
    · have hmem' : p ∈ rest := by
        rcases List.mem_cons.mp hmem with h | h
        · exact absurd h hpq
        · exact h
      cases hq : args.lookup q with
      | some w =>
        rw [keyword_arguments_for_cons_skip fp q rest args w hq]
        exact ih args hmem' hp
      | none =>
        cases hb : attribute_for fp q with
        | none =>
          exact ⟨q, keyword_arguments_for_cons_err fp q rest args hq hb⟩
        | some w =>
          rw [keyword_arguments_for_cons_attr fp q rest args w hq hb]
          refine ih (args ++ [(q, w)]) hmem' ?_
          rw [lookup_append_right _ _ _ hp]
          have hbeq : (p == q) = false := beq_eq_false_iff_ne.mpr hpq
          simp [List.lookup, hbeq]

/-- C2: resolving an empty name list returns the explicit mapping
unchanged; explicit values take precedence and appear verbatim in any
successful result; a requested non-explicit name resolves to the
same-named processor attribute; and a requested name with neither an
explicit value nor a matching attribute makes resolution propagate an
uncaught attribute-lookup failure. -/
theorem keyword_arguments_for_spec (fp : FileProcessor)
    (params : List PyStr) (args : List (PyStr × PyValue)) :
    keyword_arguments_for fp [] args = .ok args
    ∧ (∀ res p v, keyword_arguments_for fp params args = .ok res →
        args.lookup p = some v → res.lookup p = some v)
    ∧ (∀ res p, keyword_arguments_for fp params args = .ok res →
        p ∈ params → args.lookup p = none →
        res.lookup p = attribute_for fp p)
    ∧ (∀ p, p ∈ params → args.lookup p = none → attribute_for fp p = none →
        ∃ e, keyword_arguments_for fp params args = .error e) :=
  ⟨rfl,
   fun res p v hok hp =>
     keyword_arguments_for_keeps fp params args res hok p v hp,
   fun res p hok hmem hp =>
     keyword_arguments_for_resolves fp params args res hok p hmem hp,
   fun p hmem hp ha =>
     keyword_arguments_for_fails fp params args p hmem hp ha⟩

/-- Witness for C2: the explicit value for a name wins over resolution on
a concrete processor and parameter list. -/
theorem keyword_arguments_for_spec_witness :
    List.lookup "fake".toList
        [("fake".toList, PyValue.str "foo".toList),
         ("noqa".toList, PyValue.bool false)]
      = some (PyValue.str "foo".toList) :=
  (keyword_arguments_for_spec (init_processor "-".toList ["Line 1".toList])
      ["noqa".toList, "fake".toList]
      [("fake".toList, PyValue.str "foo".toList)]).2.1
    [("fake".toList, PyValue.str "foo".toList),
     ("noqa".toList, PyValue.bool false)]
    "fake".toList (PyValue.str "foo".toList) (by rfl) (by rfl)

end Flake8

namespace Flake8

/-- C9: `format_source` returns `None` when source display is disabled
and otherwise the offending physical line followed by `column_number`
spaces and a caret; `handle` always writes the formatted error line and
writes the source line exactly when `format_source` returned one. -/
theorem formatter_handle_spec (format : StyleError → PyStr)
    (f : BaseFormatter) (error : StyleError) :
    (f.options.show_source = false → format_source f error = none)
    ∧ (f.options.show_source = true →
        format_source f error = some (error.physical_line ++
          (List.replicate error.column_number ' ' ++ ['^'])))
    ∧ handle format f error = output_one f (format error) ::
        (match format_source f error with
         | some s => [output_one f s]
         | none => []) := by
  refine ⟨?_, ?_, ?_⟩
  · intro h
    simp [format_source, h]
  · intro h
    simp [format_source, h]
  · unfold handle formatter_write
    cases hs : f.options.show_source with
    | false =>
      have h : format_source f error = none := by simp [format_source, hs]
      rw [h]
      simp [py_truthy]
    | true =>
      have h : format_source f error = some (error.physical_line ++
          (List.replicate error.column_number ' ' ++ ['^'])) := by
        simp [format_source, hs]
      rw [h]
      simp [py_truthy]

/-- Witness for C9 on a concrete error with source display enabled. -/
theorem formatter_handle_spec_witness :
    format_source
        (formatter_init { show_source := true, output_file := none })
        { physical_line := "x=1\n".toList, column_number := 4 }
      = some ("x=1\n".toList ++ (List.replicate 4 ' ' ++ ['^'])) :=
  (formatter_handle_spec (fun _ => [])
      (formatter_init { show_source := true, output_file := none })
      { physical_line := "x=1\n".toList, column_number := 4 }).2.1 rfl

/-- C10: `stop` closes the open output handle when one exists and resets
`output_fd` to `None`; a second `stop` is a no-op that never touches the
closed handle; and a `write` performed after `stop`, or on a freshly
initialized formatter before `start`, goes to standard output. -/
theorem formatter_stop_spec (f : BaseFormatter) (options : FormatOptions)
    (line : PyStr) (source : Option PyStr) :
    (formatter_stop f).1.output_fd = none
    ∧ (∀ fd, f.output_fd = some fd →
        formatter_stop f = ({ f with output_fd := none },
          [OutEvent.fileClose fd]))
    ∧ (f.output_fd = none → formatter_stop f = (f, []))
    ∧ formatter_stop (formatter_stop f).1 = ((formatter_stop f).1, [])
    ∧ (∀ ev ∈ formatter_write (formatter_stop f).1 line source,
        ∃ s, ev = OutEvent.stdoutPrint s)
    ∧ (∀ ev ∈ formatter_write (formatter_init options) line source,
        ∃ s, ev = OutEvent.stdoutPrint s) := by
  have hstop : (formatter_stop f).1.output_fd = none := by
    unfold formatter_stop
    cases h : f.output_fd with
    | some fd => rfl
    | none => simpa using h
  have hwrite : ∀ g : BaseFormatter, g.output_fd = none →
      ∀ ev ∈ formatter_write g line source,
        ∃ s, ev = OutEvent.stdoutPrint s := by
    intro g hg ev hev
    unfold formatter_write output_one at hev
    rw [hg] at hev
    rcases List.mem_cons.mp hev with h | h
    · exact ⟨line, h⟩
    · cases hpt : py_truthy source with
      | false => rw [hpt] at h; cases h
      | true =>
        rw [hpt] at h
        rcases List.mem_singleton.mp h with rfl
        exact ⟨source.getD [], rfl⟩
  refine ⟨hstop, ?_, ?_, ?_, hwrite _ hstop, hwrite _ rfl⟩
  · intro fd hfd
    unfold formatter_stop
    rw [hfd]
  · intro hnone
    unfold formatter_stop
    rw [hnone]
  · have h2 : (formatter_stop f).1.output_fd = none := hstop
    revert h2
    generalize (formatter_stop f).1 = g
    intro h2
    unfold formatter_stop
    rw [h2]

/-- Witness for C10: stopping a started formatter with an open handle
closes exactly that handle and clears `output_fd`. -/
theorem formatter_stop_spec_witness :
    formatter_stop
        (formatter_start
          (formatter_init { show_source := false,
                            output_file := some "out.txt".toList }) 7)
      = ({ formatter_start
             (formatter_init { show_source := false,
                               output_file := some "out.txt".toList }) 7 with
           output_fd := none },
         [OutEvent.fileClose 7]) :=
  (formatter_stop_spec
      (formatter_start
        (formatter_init { show_source := false,
                          output_file := some "out.txt".toList }) 7)
      { show_source := false, output_file := none } [] none).2.1 7 rfl

end Flake8
